import Mathlib

/-!
Verification development for `automate_scores.py` (Fantasy-Automation).

The script fetches a schedule page through a scraping proxy with a disk
cache, a rolling-window rate limiter and exponential backoff, extracts the
latest completed matchweek and its match-report links from the HTML table,
dispatches each link to an external scorer subprocess, and merges the CSVs.

Shallow embedding conventions:
* Wall-clock time (`time.time()`) is modelled as a rational number; a call
  to `time.sleep(d)` advances the clock by exactly `d`.
* The module-level list `_request_timestamps` is modelled as a `List ℚ`,
  oldest first, threaded explicitly.
* The on-disk HTML cache for one URL is the file at `_cache_path_for_url url`;
  we model that single slot as `Option CacheEntry` (payload text plus the
  file's mtime).  The keyed view of the cache directory (one file per digest
  key) is modelled separately as an association list keyed by path.
* `requests.get` is modelled by an oracle `transport : ℕ → TransportResult`
  giving, for the n-th request issued by the call, either a raised exception
  or a response (elapsed round-trip time, optional status code, body text).
* BeautifulSoup structure: a parsed schedule table is a `List Row`, one
  entry per `<tr>`; `Row.week` / `Row.score` are the text of the
  `td[data-stat=week]` / `td[data-stat=score]` cells when those cells exist,
  and `Row.matchReport` is the `href` of an `<a>Match Report</a>` anchor
  when such an anchor with an `href` attribute exists.
  `find_premier_league_table` returning the table or `None` is modelled by
  `Option (List Row)`.
-/

/-- `MAX_REQUESTS_PER_MIN = 10` (module constant). -/
def MAX_REQUESTS_PER_MIN : ℕ := 10

/-- `REQUEST_WINDOW_SECONDS = 60.0` (module constant). -/
def REQUEST_WINDOW_SECONDS : ℚ := 60

/-- `_purge_old_timestamps`: pops from the front of the list while the head
is `≤ now - REQUEST_WINDOW_SECONDS`.  Popping index 0 while the head passes
the test is exactly `dropWhile`. -/
def purge_old_timestamps (now : ℚ) (tss : List ℚ) : List ℚ :=
  tss.dropWhile (fun t => t ≤ now - REQUEST_WINDOW_SECONDS)

/-- `_sleep_to_obey_rate_limit`: purge; if at least `MAX_REQUESTS_PER_MIN`
timestamps remain, sleep `(earliest + REQUEST_WINDOW_SECONDS) - now + 0.5`
(when positive) and purge again.  Returns the clock after any sleep together
with the new timestamp list. -/
def sleep_to_obey_rate_limit (now : ℚ) (tss : List ℚ) : ℚ × List ℚ :=
  let tss1 := purge_old_timestamps now tss
  if MAX_REQUESTS_PER_MIN ≤ tss1.length then
    -- `_request_timestamps[0]`: the branch guard guarantees nonemptiness,
    -- so `headI` equals the head of the list.
    let earliest := tss1.headI
    let wait := (earliest + REQUEST_WINDOW_SECONDS) - now + 1/2
    if 0 < wait then
      (now + wait, purge_old_timestamps (now + wait) tss1)
    else
      (now, purge_old_timestamps now tss1)
  else
    (now, tss1)

/-- `_record_request_timestamp`: appends the current time. -/
def record_request_timestamp (now : ℚ) (tss : List ℚ) : List ℚ :=
  tss ++ [now]

/-- Throttle state: the current wall clock and `_request_timestamps`. -/
structure ThrState where
  now : ℚ
  tss : List ℚ
deriving Repr, DecidableEq

/-- One fetch-loop attempt as seen by the throttle: the clock drifts by
`δ1 ≥ 0` since the last event, `_sleep_to_obey_rate_limit` runs (possibly
sleeping), the network round-trip takes `δ2 ≥ 0`, and then
`_record_request_timestamp` runs. -/
def throttleStep (s : ThrState) (δ1 δ2 : ℚ) : ThrState :=
  let p := sleep_to_obey_rate_limit (s.now + δ1) s.tss
  { now := p.1 + δ2, tss := record_request_timestamp (p.1 + δ2) p.2 }

/-- The throttle protocol as driven by the fetch loop: starting from the
module-initial empty list at clock `t0`, run one `throttleStep` per attempt. -/
def runThrottle (t0 : ℚ) (steps : List (ℚ × ℚ)) : ThrState :=
  steps.foldl (fun s d => throttleStep s d.1 d.2) { now := t0, tss := [] }

/-- Well-formedness invariant of the throttle state: timestamps are sorted
ascending, none is in the future, and at most `MAX_REQUESTS_PER_MIN` are
retained. -/
def ThrInv (s : ThrState) : Prop :=
  s.tss.Pairwise (· ≤ ·) ∧ (∀ t ∈ s.tss, t ≤ s.now) ∧
    s.tss.length ≤ MAX_REQUESTS_PER_MIN

theorem purge_sublist (now : ℚ) (tss : List ℚ) :
    (purge_old_timestamps now tss).Sublist tss :=
  (List.dropWhile_suffix _).sublist

theorem purge_suffix (now : ℚ) (tss : List ℚ) :
    (purge_old_timestamps now tss) <:+ tss :=
  List.dropWhile_suffix _

theorem purge_length_le (now : ℚ) (tss : List ℚ) :
    (purge_old_timestamps now tss).length ≤ tss.length :=
  (purge_sublist now tss).length_le

theorem purge_pairwise {tss : List ℚ} (now : ℚ)
    (h : tss.Pairwise (· ≤ ·)) :
    (purge_old_timestamps now tss).Pairwise (· ≤ ·) :=
  List.Pairwise.sublist (purge_sublist now tss) h

/-- On a sorted list, every timestamp surviving a purge is strictly newer
than the cutoff `now - REQUEST_WINDOW_SECONDS`. -/
theorem purge_all_fresh {tss : List ℚ} (now : ℚ)
    (h : tss.Pairwise (· ≤ ·)) :
    ∀ t ∈ purge_old_timestamps now tss, now - REQUEST_WINDOW_SECONDS < t := by
  induction tss with
  | nil => intro t ht; simp [purge_old_timestamps] at ht
  | cons x xs ih =>
    rw [List.pairwise_cons] at h
    intro t ht
    rw [purge_old_timestamps, List.dropWhile_cons] at ht
    by_cases hx : x ≤ now - REQUEST_WINDOW_SECONDS
    · simp only [hx, decide_eq_true_eq, if_pos] at ht
      exact ih h.2 t ht
    · rw [if_neg (by simpa using hx)] at ht
      rcases List.mem_cons.mp ht with rfl | hmem
      · exact lt_of_not_le hx
      · exact lt_of_lt_of_le (lt_of_not_le hx) (h.1 t hmem)

theorem purge_mem_le {tss : List ℚ} {b : ℚ} (now : ℚ)
    (h : ∀ t ∈ tss, t ≤ b) :
    ∀ t ∈ purge_old_timestamps now tss, t ≤ b :=
  fun t ht => h t ((purge_sublist now tss).mem ht)

/-- Branch equation: window not full after the purge — no sleep happens. -/
theorem sleep_eq_not_full {now : ℚ} {tss : List ℚ}
    (h : ¬ MAX_REQUESTS_PER_MIN ≤ (purge_old_timestamps now tss).length) :
    sleep_to_obey_rate_limit now tss = (now, purge_old_timestamps now tss) := by
  unfold sleep_to_obey_rate_limit
  dsimp only
  rw [if_neg h]

/-- Branch equation: window full after the purge and positive wait — the
caller sleeps `wait` seconds and a second purge runs at the later clock. -/
theorem sleep_eq_full {now : ℚ} {tss : List ℚ}
    (h : MAX_REQUESTS_PER_MIN ≤ (purge_old_timestamps now tss).length)
    (hw : 0 < ((purge_old_timestamps now tss).headI +
        REQUEST_WINDOW_SECONDS) - now + 1/2) :
    sleep_to_obey_rate_limit now tss =
      (now + (((purge_old_timestamps now tss).headI +
          REQUEST_WINDOW_SECONDS) - now + 1/2),
       purge_old_timestamps
         (now + (((purge_old_timestamps now tss).headI +
             REQUEST_WINDOW_SECONDS) - now + 1/2))
         (purge_old_timestamps now tss)) := by
  unfold sleep_to_obey_rate_limit
  dsimp only
  rw [if_pos h, if_pos hw]

/-- After `_sleep_to_obey_rate_limit`, at most `MAX_REQUESTS_PER_MIN - 1`
timestamps remain (so the caller's `record` keeps the window at or below the
cap), the clock does not go backwards, the surviving timestamps form a
suffix of the original list, stay sorted, and stay at or before the clock. -/
theorem sleep_to_obey_props {now : ℚ} {tss : List ℚ}
    (hpw : tss.Pairwise (· ≤ ·)) (hle : ∀ t ∈ tss, t ≤ now)
    (hlen : tss.length ≤ MAX_REQUESTS_PER_MIN) :
    now ≤ (sleep_to_obey_rate_limit now tss).1 ∧
    (sleep_to_obey_rate_limit now tss).2 <:+ tss ∧
    (sleep_to_obey_rate_limit now tss).2.Pairwise (· ≤ ·) ∧
    (∀ t ∈ (sleep_to_obey_rate_limit now tss).2,
        t ≤ (sleep_to_obey_rate_limit now tss).1) ∧
    (sleep_to_obey_rate_limit now tss).2.length + 1 ≤ MAX_REQUESTS_PER_MIN := by
  by_cases hfull : MAX_REQUESTS_PER_MIN ≤ (purge_old_timestamps now tss).length
  · rcases hne : purge_old_timestamps now tss with _ | ⟨e, rest⟩
    · rw [hne] at hfull; simp [MAX_REQUESTS_PER_MIN] at hfull
    · have hefresh : now - REQUEST_WINDOW_SECONDS < e := by
        have := purge_all_fresh now hpw
        rw [hne] at this
        exact this e (List.mem_cons_self e rest)
      have hheadI : (purge_old_timestamps now tss).headI = e := by
        rw [hne]; rfl
      have hwait : 0 < ((purge_old_timestamps now tss).headI +
          REQUEST_WINDOW_SECONDS) - now + 1/2 := by
        rw [hheadI]; linarith
      rw [sleep_eq_full hfull hwait]
      rw [hheadI, hne]
      dsimp only
      set now2 := now + ((e + REQUEST_WINDOW_SECONDS) - now + 1/2) with hnow2
      have hdrop : purge_old_timestamps now2 (e :: rest) =
          purge_old_timestamps now2 rest := by
        rw [purge_old_timestamps, List.dropWhile_cons,
          if_pos (by rw [decide_eq_true_eq]; rw [hnow2]; linarith)]
        rfl
      have hsub1 : purge_old_timestamps now2 (e :: rest) <:+ tss :=
        (purge_suffix now2 (e :: rest)).trans (hne ▸ purge_suffix now tss)
      refine ⟨by rw [hnow2]; linarith, hsub1,
        List.Pairwise.sublist hsub1.sublist hpw, ?_, ?_⟩
      · intro t ht
        have : t ≤ now := hle t (hsub1.sublist.mem ht)
        rw [hnow2]
        linarith
      · have h1 : (purge_old_timestamps now2 rest).length ≤ rest.length :=
          purge_length_le now2 rest
        have h2 : (e :: rest).length ≤ tss.length := by
          rw [← hne]; exact purge_length_le now tss
        simp only [List.length_cons] at h2
        simp only [hdrop]
        omega
  · rw [sleep_eq_not_full hfull]
    refine ⟨le_refl now, purge_suffix now tss, purge_pairwise now hpw,
      purge_mem_le now hle, ?_⟩
    dsimp only
    omega

/-- `throttleStep` preserves the throttle invariant when time only moves
forward. -/
theorem throttleStep_inv {s : ThrState} {δ1 δ2 : ℚ}
    (hinv : ThrInv s) (h1 : 0 ≤ δ1) (h2 : 0 ≤ δ2) :
    ThrInv (throttleStep s δ1 δ2) := by
  obtain ⟨hpw, hle, hlen⟩ := hinv
  have hle' : ∀ t ∈ s.tss, t ≤ s.now + δ1 := fun t ht => by
    have := hle t ht; linarith
  obtain ⟨hnow, hsub, hpw', hb, hlen'⟩ := sleep_to_obey_props hpw hle' hlen
  constructor
  · rw [throttleStep, record_request_timestamp]
    rw [List.pairwise_append]
    refine ⟨hpw', List.pairwise_singleton _ _, ?_⟩
    intro a ha b hb'
    rw [List.mem_singleton] at hb'
    subst hb'
    have := hb a ha
    linarith
  constructor
  · intro t ht
    rw [throttleStep, record_request_timestamp] at ht ⊢
    dsimp only at ht ⊢
    rcases List.mem_append.mp ht with hmem | hmem
    · have := hb t hmem; linarith
    · rw [List.mem_singleton] at hmem; simp [hmem]
  · rw [throttleStep, record_request_timestamp]
    simp only [List.length_append, List.length_singleton]
    exact hlen'

/-- The fold of `throttleStep` preserves the invariant. -/
theorem foldl_throttle_inv (l : List (ℚ × ℚ)) (s : ThrState)
    (hs : ThrInv s) (hl : ∀ d ∈ l, 0 ≤ d.1 ∧ 0 ≤ d.2) :
    ThrInv (l.foldl (fun s d => throttleStep s d.1 d.2) s) := by
  induction l generalizing s with
  | nil => exact hs
  | cons e es ih =>
    rw [List.foldl_cons]
    exact ih _ (throttleStep_inv hs (hl e (List.mem_cons_self e es)).1
      (hl e (List.mem_cons_self e es)).2)
      (fun d' hd' => hl d' (List.mem_cons_of_mem e hd'))

/-- Invariant holds for every run of the protocol from the initial state. -/
theorem runThrottle_inv (t0 : ℚ) (steps : List (ℚ × ℚ))
    (hsteps : ∀ d ∈ steps, 0 ≤ d.1 ∧ 0 ≤ d.2) :
    ThrInv (runThrottle t0 steps) := by
  have base : ThrInv { now := t0, tss := [] } := by
    refine ⟨List.Pairwise.nil, ?_, ?_⟩ <;> simp [MAX_REQUESTS_PER_MIN]
  exact foldl_throttle_inv steps _ base hsteps

/-- C2: for every sequence of purge / wait-if-needed / record interactions as
performed by the fetch loop (each `record` preceded by a `wait_if_needed`,
clock never moving backwards), (a) after a purge at any time `now` every
retained timestamp is strictly greater than `now - REQUEST_WINDOW_SECONDS`,
and (b) after `wait_if_needed` returns and the caller records, the number of
retained timestamps newer than `now - REQUEST_WINDOW_SECONDS` never exceeds
`MAX_REQUESTS_PER_MIN`. -/
theorem throttle_purge_window_invariant (t0 : ℚ) (steps : List (ℚ × ℚ))
    (hsteps : ∀ d ∈ steps, 0 ≤ d.1 ∧ 0 ≤ d.2) :
    (∀ now : ℚ, ∀ t ∈ purge_old_timestamps now (runThrottle t0 steps).tss,
        now - REQUEST_WINDOW_SECONDS < t) ∧
    (runThrottle t0 steps).tss.countP
        (fun t => (runThrottle t0 steps).now - REQUEST_WINDOW_SECONDS < t) ≤
      MAX_REQUESTS_PER_MIN := by
  obtain ⟨hpw, _, hlen⟩ := runThrottle_inv t0 steps hsteps
  exact ⟨fun now => purge_all_fresh now hpw,
    le_trans (List.countP_le_length _) hlen⟩

/-- Witness for C2 at a concrete protocol run. -/
theorem throttle_purge_window_invariant_witness :
    (∀ d ∈ [((0:ℚ), (1:ℚ)), (2, 3), (0, 0)], 0 ≤ d.1 ∧ 0 ≤ d.2) ∧
    ((∀ now : ℚ, ∀ t ∈ purge_old_timestamps now
          (runThrottle 5 [((0:ℚ), (1:ℚ)), (2, 3), (0, 0)]).tss,
        now - REQUEST_WINDOW_SECONDS < t) ∧
      (runThrottle 5 [((0:ℚ), (1:ℚ)), (2, 3), (0, 0)]).tss.countP
          (fun t => (runThrottle 5 [((0:ℚ), (1:ℚ)), (2, 3), (0, 0)]).now -
            REQUEST_WINDOW_SECONDS < t) ≤ MAX_REQUESTS_PER_MIN) :=
  ⟨by decide, throttle_purge_window_invariant 5 _ (by decide)⟩

/-! ## Fetch engine: `fetch_html_via_abstractapi` -/

/-- A cached HTML file for one URL: its text content and the file mtime. -/
structure CacheEntry where
  text : String
  mtime : ℚ
deriving Repr, DecidableEq

/-- Outcome of one `requests.get` call: either a raised exception or a
response, each after `dur` seconds of round-trip time. -/
inductive TransportResult where
  | exn (dur : ℚ)
  | resp (dur : ℚ) (status : Option ℕ) (text : String)
deriving Repr, DecidableEq

/-- `true` when the transport call returned a response object (no raise). -/
def TransportResult.isResp : TransportResult → Bool
  | .exn _ => false
  | .resp _ _ _ => true

/-- Naive character-list matcher: does the second list start with the
first one? -/
def leadsWith : List Char → List Char → Bool
  | [], _ => true
  | _ :: _, [] => false
  | a :: as, b :: bs => a == b && leadsWith as bs

/-- Substring containment, `needle in hay` of Python. -/
def containsSub (needle : List Char) : List Char → Bool
  | [] => needle.isEmpty
  | c :: t => leadsWith needle (c :: t) || containsSub needle t

/-- The content-sanity marker check `"Premier League" in resp.text`. -/
def hasMarker (s : String) : Bool :=
  containsSub "Premier League".toList s.toList

/-- Classification of a response by the `if/elif/else` chain of
`fetch_html_via_abstractapi` (lines 102–124):
`status == 200 and resp.text and "Premier League" in resp.text` is a success;
`status in (403, 429)` and `status and 500 <= status < 600` are retried with
backoff; everything else (including a missing status, `None`) breaks the
loop.  (`status = 0` is falsy in Python, and `0` is outside `[500, 600)`, so
mapping it to the final `else` is exact.) -/
inductive RespClass where
  | success
  | retryable
  | unretryable
deriving Repr, DecidableEq

def classify (status : Option ℕ) (text : String) : RespClass :=
  if status == some 200 && !(text == "") && hasMarker text then .success
  else if status == some 403 || status == some 429 then .retryable
  else
    match status with
    | some s => if 500 ≤ s && s < 600 then .retryable else .unretryable
    | none => .unretryable

/-- `true` when the attempt outcome sends the loop into the retry branch
(transport exception, 403/429, or 5xx). -/
def TransportResult.isRetryable : TransportResult → Bool
  | .exn _ => true
  | .resp _ status text => classify status text == .retryable

/-- `true` when the attempt outcome is a sane 200. -/
def TransportResult.isSuccess : TransportResult → Bool
  | .exn _ => false
  | .resp _ status text => classify status text == .success

/-- State threaded through the fetch: the clock, `_request_timestamps`, and
the cache file for the fetched URL (`None` when the file does not exist). -/
structure FetchState where
  now : ℚ
  tss : List ℚ
  cache : Option CacheEntry
deriving Repr, DecidableEq

/-- Observable log of one `fetch_html_via_abstractapi` call. -/
structure FetchLog where
  /-- the returned value: `some html` or `None` -/
  result : Option String
  /-- `true` when the return came from the fresh-cache early path -/
  servedCache : Bool
  /-- number of `requests.get` invocations (including ones that raised) -/
  attempts : ℕ
  /-- number of `_record_request_timestamp` calls -/
  records : ℕ
  /-- durations of the `time.sleep(backoff)` calls, in order -/
  backoffSleeps : List ℚ
  /-- number of cache-file writes -/
  cacheWrites : ℕ
  /-- number of `_sleep_to_obey_rate_limit` calls -/
  waits : ℕ
deriving Repr, DecidableEq

/-- The `while attempt < max_retries` loop (lines 80–124), with `fuel` the
remaining number of allowed attempts, `idx` the index of the next attempt in
the transport oracle and `backoff` the current backoff value.  Each
iteration: rate-limit wait, transport call (round-trip time `dur`), then —
only if a response object came back — `_record_request_timestamp`, then the
classification chain.  Falling out of the loop returns `None` (line 127). -/
def fetchLoop (transport : ℕ → TransportResult) :
    ℕ → ℕ → ℚ → FetchState → FetchLog → FetchLog × FetchState
  | 0, _, _, st, log => ({ log with result := none }, st)
  | fuel + 1, idx, backoff, st, log =>
    let p := sleep_to_obey_rate_limit st.now st.tss
    let log1 := { log with waits := log.waits + 1, attempts := log.attempts + 1 }
    match transport idx with
    | .exn dur =>
      -- `except Exception`: sleep backoff, double it, continue; no record.
      fetchLoop transport fuel (idx + 1) (2 * backoff)
        { st with now := p.1 + dur + backoff, tss := p.2 }
        { log1 with backoffSleeps := log1.backoffSleeps ++ [backoff] }
    | .resp dur status text =>
      let now2 := p.1 + dur
      let st2 : FetchState :=
        { st with now := now2, tss := record_request_timestamp now2 p.2 }
      let log2 := { log1 with records := log1.records + 1 }
      match classify status text with
      | .success =>
        ({ log2 with result := some text, cacheWrites := log2.cacheWrites + 1 },
         { st2 with cache := some { text := text, mtime := now2 } })
      | .retryable =>
        fetchLoop transport fuel (idx + 1) (2 * backoff)
          { st2 with now := now2 + backoff }
          { log2 with backoffSleeps := log2.backoffSleeps ++ [backoff] }
      | .unretryable => ({ log2 with result := none }, st2)

/-- An empty log, as at entry to `fetch_html_via_abstractapi`. -/
def emptyLog : FetchLog :=
  { result := none, servedCache := false, attempts := 0, records := 0,
    backoffSleeps := [], cacheWrites := 0, waits := 0 }

/-- `fetch_html_via_abstractapi(url, use_cache_seconds, max_retries)`.
`keySet` is `bool(ABSTRACTAPI_KEY)` after strip; the guard at line 66
returns `None` before any cache or network interaction when it is unset.
Then the cache file is consulted (lines 70–78): a file of age at most
`use_cache_seconds` is returned as-is; otherwise the retry loop runs with
initial backoff `1.0`. -/
def fetch_html_via_abstractapi (keySet : Bool) (transport : ℕ → TransportResult)
    (st : FetchState) (use_cache_seconds : ℚ) (max_retries : ℕ) :
    FetchLog × FetchState :=
  if !keySet then (emptyLog, st)
  else
    match st.cache with
    | some e =>
      if st.now - e.mtime ≤ use_cache_seconds then
        ({ emptyLog with result := some e.text, servedCache := true }, st)
      else
        fetchLoop transport max_retries 0 1 st emptyLog
    | none => fetchLoop transport max_retries 0 1 st emptyLog

/-! ### Step equations for the fetch loop -/

/-- The rate-limit wait never appends: its output is a suffix of the input
timestamp list (it only purges, possibly twice). -/
theorem sleep_to_obey_suffix (now : ℚ) (tss : List ℚ) :
    (sleep_to_obey_rate_limit now tss).2 <:+ tss := by
  unfold sleep_to_obey_rate_limit
  dsimp only
  by_cases hfull : MAX_REQUESTS_PER_MIN ≤ (purge_old_timestamps now tss).length
  · rw [if_pos hfull]
    by_cases hw : 0 < ((purge_old_timestamps now tss).headI +
        REQUEST_WINDOW_SECONDS) - now + 1/2
    · rw [if_pos hw]
      exact (purge_suffix _ _).trans (purge_suffix _ _)
    · rw [if_neg hw]
      exact (purge_suffix _ _).trans (purge_suffix _ _)
  · rw [if_neg hfull]
    exact purge_suffix _ _

theorem fetchLoop_exn_step {transport : ℕ → TransportResult} {idx : ℕ}
    {dur : ℚ} (fuel : ℕ) (b : ℚ) (st : FetchState) (log : FetchLog)
    (h : transport idx = .exn dur) :
    fetchLoop transport (fuel + 1) idx b st log =
      fetchLoop transport fuel (idx + 1) (2 * b)
        { st with now := (sleep_to_obey_rate_limit st.now st.tss).1 + dur + b,
                  tss := (sleep_to_obey_rate_limit st.now st.tss).2 }
        { log with waits := log.waits + 1, attempts := log.attempts + 1,
                   backoffSleeps := log.backoffSleeps ++ [b] } := by
  rw [fetchLoop, h]

theorem fetchLoop_success_step {transport : ℕ → TransportResult} {idx : ℕ}
    {dur : ℚ} {status : Option ℕ} {text : String}
    (fuel : ℕ) (b : ℚ) (st : FetchState) (log : FetchLog)
    (h : transport idx = .resp dur status text)
    (hc : classify status text = .success) :
    fetchLoop transport (fuel + 1) idx b st log =
      ({ log with waits := log.waits + 1, attempts := log.attempts + 1,
                  records := log.records + 1, result := some text,
                  cacheWrites := log.cacheWrites + 1 },
       { st with now := (sleep_to_obey_rate_limit st.now st.tss).1 + dur,
                 tss := record_request_timestamp
                   ((sleep_to_obey_rate_limit st.now st.tss).1 + dur)
                   (sleep_to_obey_rate_limit st.now st.tss).2,
                 cache := some
                   ⟨text, (sleep_to_obey_rate_limit st.now st.tss).1 + dur⟩ }) := by
  rw [fetchLoop, h]
  dsimp only
  rw [hc]

theorem fetchLoop_retry_step {transport : ℕ → TransportResult} {idx : ℕ}
    {dur : ℚ} {status : Option ℕ} {text : String}
    (fuel : ℕ) (b : ℚ) (st : FetchState) (log : FetchLog)
    (h : transport idx = .resp dur status text)
    (hc : classify status text = .retryable) :
    fetchLoop transport (fuel + 1) idx b st log =
      fetchLoop transport fuel (idx + 1) (2 * b)
        { st with now := (sleep_to_obey_rate_limit st.now st.tss).1 + dur + b,
                  tss := record_request_timestamp
                    ((sleep_to_obey_rate_limit st.now st.tss).1 + dur)
                    (sleep_to_obey_rate_limit st.now st.tss).2 }
        { log with waits := log.waits + 1, attempts := log.attempts + 1,
                   records := log.records + 1,
                   backoffSleeps := log.backoffSleeps ++ [b] } := by
  rw [fetchLoop, h]
  dsimp only
  rw [hc]

theorem fetchLoop_unretry_step {transport : ℕ → TransportResult} {idx : ℕ}
    {dur : ℚ} {status : Option ℕ} {text : String}
    (fuel : ℕ) (b : ℚ) (st : FetchState) (log : FetchLog)
    (h : transport idx = .resp dur status text)
    (hc : classify status text = .unretryable) :
    fetchLoop transport (fuel + 1) idx b st log =
      ({ log with waits := log.waits + 1, attempts := log.attempts + 1,
                  records := log.records + 1, result := none },
       { st with now := (sleep_to_obey_rate_limit st.now st.tss).1 + dur,
                 tss := record_request_timestamp
                   ((sleep_to_obey_rate_limit st.now st.tss).1 + dur)
                   (sleep_to_obey_rate_limit st.now st.tss).2 }) := by
  rw [fetchLoop, h]
  dsimp only
  rw [hc]

/-! ### Run-level lemmas for the fetch loop -/

/-- The loop makes `k ≤ fuel` transport attempts and records exactly one
throttle timestamp per attempt that produced a response object. -/
theorem fetchLoop_attempts_records (transport : ℕ → TransportResult)
    (fuel : ℕ) : ∀ (idx : ℕ) (b : ℚ) (st : FetchState) (log : FetchLog),
    ∃ k ≤ fuel,
      (fetchLoop transport fuel idx b st log).1.attempts = log.attempts + k ∧
      (fetchLoop transport fuel idx b st log).1.records =
        log.records +
          (List.range' idx k).countP (fun i => (transport i).isResp) := by
  induction fuel with
  | zero =>
    intro idx b st log
    refine ⟨0, le_refl 0, ?_, ?_⟩ <;> rw [fetchLoop] <;> simp
  | succ fuel ih =>
    intro idx b st log
    cases h : transport idx with
    | exn dur =>
      obtain ⟨k, hk, ha, hr⟩ := ih (idx + 1) (2 * b)
        { st with now := (sleep_to_obey_rate_limit st.now st.tss).1 + dur + b,
                  tss := (sleep_to_obey_rate_limit st.now st.tss).2 }
        { log with waits := log.waits + 1, attempts := log.attempts + 1,
                   backoffSleeps := log.backoffSleeps ++ [b] }
      refine ⟨k + 1, by omega, ?_, ?_⟩
      · rw [fetchLoop_exn_step fuel b st log h, ha]
        dsimp only
        omega
      · rw [fetchLoop_exn_step fuel b st log h, hr]
        dsimp only
        rw [List.range'_succ, List.countP_cons]
        simp [h, TransportResult.isResp]
    | resp dur status text =>
      cases hc : classify status text with
      | success =>
        refine ⟨1, by omega, ?_, ?_⟩
        · rw [fetchLoop_success_step fuel b st log h hc]
        · rw [fetchLoop_success_step fuel b st log h hc]
          rw [List.range'_succ, List.countP_cons]
          simp [h, TransportResult.isResp]
      | retryable =>
        obtain ⟨k, hk, ha, hr⟩ := ih (idx + 1) (2 * b)
          { st with now := (sleep_to_obey_rate_limit st.now st.tss).1 + dur + b,
                    tss := record_request_timestamp
                      ((sleep_to_obey_rate_limit st.now st.tss).1 + dur)
                      (sleep_to_obey_rate_limit st.now st.tss).2 }
          { log with waits := log.waits + 1, attempts := log.attempts + 1,
                     records := log.records + 1,
                     backoffSleeps := log.backoffSleeps ++ [b] }
        refine ⟨k + 1, by omega, ?_, ?_⟩
        · rw [fetchLoop_retry_step fuel b st log h hc, ha]
          dsimp only
          omega
        · rw [fetchLoop_retry_step fuel b st log h hc, hr]
          dsimp only
          rw [List.range'_succ, List.countP_cons]
          simp only [h, TransportResult.isResp, if_pos]
          omega
      | unretryable =>
        refine ⟨1, by omega, ?_, ?_⟩
        · rw [fetchLoop_unretry_step fuel b st log h hc]
        · rw [fetchLoop_unretry_step fuel b st log h hc]
          rw [List.range'_succ, List.countP_cons]
          simp [h, TransportResult.isResp]

/-- If no attempt the transport can deliver is a sane 200, the loop returns
`None`. -/
theorem fetchLoop_result_none (transport : ℕ → TransportResult)
    (hns : ∀ i, (transport i).isSuccess = false)
    (fuel : ℕ) : ∀ (idx : ℕ) (b : ℚ) (st : FetchState) (log : FetchLog),
    (fetchLoop transport fuel idx b st log).1.result = none := by
  induction fuel with
  | zero => intro idx b st log; rw [fetchLoop]
  | succ fuel ih =>
    intro idx b st log
    cases h : transport idx with
    | exn dur =>
      rw [fetchLoop_exn_step fuel b st log h]
      exact ih _ _ _ _
    | resp dur status text =>
      cases hc : classify status text with
      | success =>
        have := hns idx
        rw [h] at this
        simp [TransportResult.isSuccess, hc] at this
      | retryable =>
        rw [fetchLoop_retry_step fuel b st log h hc]
        exact ih _ _ _ _
      | unretryable =>
        rw [fetchLoop_unretry_step fuel b st log h hc]

/-- When every attempt in the budget is retryable, each iteration sleeps the
current backoff and doubles it: the sleeps are `b·2⁰, b·2¹, …`. -/
theorem fetchLoop_sleeps (transport : ℕ → TransportResult)
    (fuel : ℕ) : ∀ (idx : ℕ) (b : ℚ) (st : FetchState) (log : FetchLog),
    (∀ j < fuel, (transport (idx + j)).isRetryable = true) →
    (fetchLoop transport fuel idx b st log).1.backoffSleeps =
      log.backoffSleeps ++ (List.range fuel).map (fun j => b * 2 ^ j) := by
  induction fuel with
  | zero => intro idx b st log _; rw [fetchLoop]; simp
  | succ fuel ih =>
    intro idx b st log hretry
    have hshift : ∀ j < fuel, (transport (idx + 1 + j)).isRetryable = true := by
      intro j hj
      have := hretry (j + 1) (by omega)
      rwa [show idx + (j + 1) = idx + 1 + j by omega] at this
    have hmap : (List.range (fuel + 1)).map (fun j => b * 2 ^ j) =
        b :: (List.range fuel).map (fun j => (2 * b) * 2 ^ j) := by
      rw [List.range_succ_eq_map, List.map_cons, List.map_map]
      refine congrArg₂ _ (by ring) (List.map_congr_left ?_)
      intro j _
      simp only [Function.comp_apply]
      rw [pow_succ]
      ring
    have h0 := hretry 0 (by omega)
    rw [Nat.add_zero] at h0
    cases h : transport idx with
    | exn dur =>
      rw [fetchLoop_exn_step fuel b st log h,
        ih (idx + 1) (2 * b) _ _ hshift]
      dsimp only
      rw [hmap]
      simp
    | resp dur status text =>
      rw [h] at h0
      have hc : classify status text = .retryable := by
        simpa [TransportResult.isRetryable] using h0
      rw [fetchLoop_retry_step fuel b st log h hc,
        ih (idx + 1) (2 * b) _ _ hshift]
      dsimp only
      rw [hmap]
      simp

/-! ### Top-level fetch equations -/

/-- Credential set, cache file fresh: the early return at lines 70–76. -/
theorem fetch_cacheHit_eq (transport : ℕ → TransportResult)
    {st : FetchState} {e : CacheEntry} (ucs : ℚ) (mr : ℕ)
    (hc : st.cache = some e) (hf : st.now - e.mtime ≤ ucs) :
    fetch_html_via_abstractapi true transport st ucs mr =
      ({ emptyLog with result := some e.text, servedCache := true }, st) := by
  unfold fetch_html_via_abstractapi
  rw [hc]
  simp [hf]

/-- Credential set, cache absent or stale: the call runs the retry loop with
initial backoff `1.0`. -/
theorem fetch_cacheMiss_eq (transport : ℕ → TransportResult)
    {st : FetchState} {ucs : ℚ} (mr : ℕ)
    (hmiss : ∀ e, st.cache = some e → ¬(st.now - e.mtime ≤ ucs)) :
    fetch_html_via_abstractapi true transport st ucs mr =
      fetchLoop transport mr 0 1 st emptyLog := by
  unfold fetch_html_via_abstractapi
  cases hc : st.cache with
  | none => simp
  | some e => simp [hmiss e hc]

/-! ### C1 -/

/-- C1, counterexample: the claim says a fresh cache entry is served
"regardless of any other state such as whether the access credential is
set", but the code checks `ABSTRACTAPI_KEY` (line 66) *before* the cache:
with the credential unset and a fresh entry of age `0 ≤ 3600` present, the
call returns `None`, not the cached content. -/
theorem fresh_cache_hit_not_served_without_key :
    ((0 : ℚ) - 0 ≤ 3600) ∧
    (fetch_html_via_abstractapi false (fun _ => .exn 0)
        ⟨0, [], some ⟨"cached", 0⟩⟩ 3600 3).1.result = none := by
  exact ⟨by norm_num, rfl⟩

/-- C1 (amended: provided the access credential is set — the code returns
early on a missing credential before consulting the cache): when the cache
holds a fresh entry (age at most `use_cache_seconds`), the call returns the
cached content served from cache, performs no throttle interaction (no
wait, no record, timestamp list untouched) and no network request. -/
theorem fresh_cache_hit_served_from_cache (transport : ℕ → TransportResult)
    (st : FetchState) (e : CacheEntry) (ucs : ℚ) (mr : ℕ)
    (hc : st.cache = some e) (hf : st.now - e.mtime ≤ ucs) :
    (fetch_html_via_abstractapi true transport st ucs mr).1.result =
        some e.text ∧
    (fetch_html_via_abstractapi true transport st ucs mr).1.servedCache = true ∧
    (fetch_html_via_abstractapi true transport st ucs mr).1.attempts = 0 ∧
    (fetch_html_via_abstractapi true transport st ucs mr).1.records = 0 ∧
    (fetch_html_via_abstractapi true transport st ucs mr).1.waits = 0 ∧
    (fetch_html_via_abstractapi true transport st ucs mr).2 = st := by
  rw [fetch_cacheHit_eq transport ucs mr hc hf]
  simp [emptyLog]

/-- Witness for C1 at a concrete fresh-cache state. -/
theorem fresh_cache_hit_served_from_cache_witness :
    ((⟨10, [], some ⟨"page", 5⟩⟩ : FetchState).cache = some ⟨"page", 5⟩ ∧
      (10 : ℚ) - 5 ≤ 3600) ∧
    ((fetch_html_via_abstractapi true (fun _ => .exn 0)
        ⟨10, [], some ⟨"page", 5⟩⟩ 3600 3).1.result = some "page" ∧
      (fetch_html_via_abstractapi true (fun _ => .exn 0)
        ⟨10, [], some ⟨"page", 5⟩⟩ 3600 3).1.servedCache = true ∧
      (fetch_html_via_abstractapi true (fun _ => .exn 0)
        ⟨10, [], some ⟨"page", 5⟩⟩ 3600 3).1.attempts = 0 ∧
      (fetch_html_via_abstractapi true (fun _ => .exn 0)
        ⟨10, [], some ⟨"page", 5⟩⟩ 3600 3).1.records = 0 ∧
      (fetch_html_via_abstractapi true (fun _ => .exn 0)
        ⟨10, [], some ⟨"page", 5⟩⟩ 3600 3).1.waits = 0 ∧
      (fetch_html_via_abstractapi true (fun _ => .exn 0)
        ⟨10, [], some ⟨"page", 5⟩⟩ 3600 3).2 = ⟨10, [], some ⟨"page", 5⟩⟩) :=
  ⟨⟨rfl, by norm_num⟩,
    fresh_cache_hit_served_from_cache _ _ ⟨"page", 5⟩ 3600 3 rfl (by norm_num)⟩

/-! ### C3 -/

/-- The classification chain maps a markerless 200, a missing status, and
any status outside {200, 403, 429} ∪ [500, 600) to the non-retryable
`break` branch. -/
theorem classify_unretryable {status : Option ℕ} {text : String}
    (hstat : (status = some 200 ∧ hasMarker text = false) ∨ status = none ∨
      (∃ s, status = some s ∧ s ≠ 200 ∧ s ≠ 403 ∧ s ≠ 429 ∧
        ¬(500 ≤ s ∧ s < 600))) :
    classify status text = .unretryable := by
  rcases hstat with ⟨rfl, hm⟩ | rfl | ⟨s, rfl, h200, h403, h429, h5xx⟩
  · simp [classify, hm]
  · simp [classify]
  · have e200 : ((some s == some 200) : Bool) = false := by
      simp [h200]
    have e403 : ((some s == some 403) : Bool) = false := by
      simp [h403]
    have e429 : ((some s == some 429) : Bool) = false := by
      simp [h429]
    have e5 : ((500 ≤ s : Bool) && (s < 600 : Bool)) = false := by
      rcases Nat.lt_or_ge s 500 with hlt | hge
      · simp [Nat.not_le.mpr hlt]
      · have : ¬ s < 600 := fun hlt6 => h5xx ⟨hge, hlt6⟩
        simp [this]
    simp [classify, e200, e403, e429, e5]

/-- C3: an attempt answered by a 200 without the marker token, or by any
status outside {200, 403, 429} ∪ 5xx, makes the loop break immediately: the
call returns `None`, no further attempt happens, no backoff sleep happens
for that attempt, and the cache is not written. -/
theorem unretryable_response_stops_immediately
    (transport : ℕ → TransportResult) (fuel idx : ℕ) (b : ℚ)
    (st : FetchState) (log : FetchLog) (dur : ℚ) (status : Option ℕ)
    (text : String) (h : transport idx = .resp dur status text)
    (hstat : (status = some 200 ∧ hasMarker text = false) ∨ status = none ∨
      (∃ s, status = some s ∧ s ≠ 200 ∧ s ≠ 403 ∧ s ≠ 429 ∧
        ¬(500 ≤ s ∧ s < 600))) :
    (fetchLoop transport (fuel + 1) idx b st log).1.result = none ∧
    (fetchLoop transport (fuel + 1) idx b st log).1.attempts =
      log.attempts + 1 ∧
    (fetchLoop transport (fuel + 1) idx b st log).1.backoffSleeps =
      log.backoffSleeps ∧
    (fetchLoop transport (fuel + 1) idx b st log).1.cacheWrites =
      log.cacheWrites ∧
    (fetchLoop transport (fuel + 1) idx b st log).2.cache = st.cache := by
  rw [fetchLoop_unretry_step fuel b st log h (classify_unretryable hstat)]
  exact ⟨rfl, rfl, rfl, rfl, rfl⟩

/-- Witness for C3: a 404 on the first attempt with two attempts of budget
left — immediate failure, one attempt, no sleep, no cache write. -/
theorem unretryable_response_stops_immediately_witness :
    ((fun _ => TransportResult.resp 0 (some 404) "x") 0 =
        TransportResult.resp 0 (some 404) "x") ∧
    ((fetchLoop (fun _ => .resp 0 (some 404) "x") 3 0 1
        ⟨0, [], none⟩ emptyLog).1.result = none ∧
      (fetchLoop (fun _ => .resp 0 (some 404) "x") 3 0 1
        ⟨0, [], none⟩ emptyLog).1.attempts = emptyLog.attempts + 1 ∧
      (fetchLoop (fun _ => .resp 0 (some 404) "x") 3 0 1
        ⟨0, [], none⟩ emptyLog).1.backoffSleeps = emptyLog.backoffSleeps ∧
      (fetchLoop (fun _ => .resp 0 (some 404) "x") 3 0 1
        ⟨0, [], none⟩ emptyLog).1.cacheWrites = emptyLog.cacheWrites ∧
      (fetchLoop (fun _ => .resp 0 (some 404) "x") 3 0 1
        ⟨0, [], none⟩ emptyLog).2.cache = (⟨0, [], none⟩ : FetchState).cache) :=
  ⟨rfl, unretryable_response_stops_immediately _ 2 0 1 _ _ 0 (some 404) "x" rfl
    (Or.inr (Or.inr ⟨404, rfl, by omega, by omega, by omega, by omega⟩))⟩

/-! ### C4 -/

/-- Scenario 3 transport: 429, then 429, then a sane 200. -/
def scenario3Transport : ℕ → TransportResult := fun i =>
  if i < 2 then .resp 1 (some 429) "" else .resp 1 (some 200) "Premier League table"

/-- C4: (a) in any run of the retry loop, the number of throttle records
grows by exactly the number of executed attempts whose round-trip completed
with a response object (one record per response, none for exceptions);
(b) a fresh cache hit records no timestamp and leaves the window untouched;
(c) concretely, attempts answered 429, 429, 200-with-marker record exactly
three timestamps and succeed. -/
theorem record_once_per_response (transport : ℕ → TransportResult)
    (fuel idx : ℕ) (b : ℚ) (st : FetchState) (log : FetchLog)
    (st2 : FetchState) (e : CacheEntry) (ucs : ℚ) (mr : ℕ)
    (hc : st2.cache = some e) (hf : st2.now - e.mtime ≤ ucs) :
    (∃ k ≤ fuel,
      (fetchLoop transport fuel idx b st log).1.attempts = log.attempts + k ∧
      (fetchLoop transport fuel idx b st log).1.records =
        log.records +
          (List.range' idx k).countP (fun i => (transport i).isResp)) ∧
    ((fetch_html_via_abstractapi true transport st2 ucs mr).1.records = 0 ∧
      (fetch_html_via_abstractapi true transport st2 ucs mr).2.tss = st2.tss) ∧
    ((fetch_html_via_abstractapi true scenario3Transport
        ⟨0, [], none⟩ 3600 3).1.records = 3 ∧
      (fetch_html_via_abstractapi true scenario3Transport
        ⟨0, [], none⟩ 3600 3).1.result = some "Premier League table") := by
  refine ⟨fetchLoop_attempts_records transport fuel idx b st log, ?_, ?_⟩
  · rw [fetch_cacheHit_eq transport ucs mr hc hf]
    exact ⟨rfl, rfl⟩
  · constructor <;> decide

/-- Witness for C4 discharging the cache-hit hypotheses concretely. -/
theorem record_once_per_response_witness :
    ((⟨7, [1], some ⟨"html", 7⟩⟩ : FetchState).cache = some ⟨"html", 7⟩ ∧
      (7 : ℚ) - 7 ≤ 60) ∧
    ((fetch_html_via_abstractapi true (fun _ => .exn 0)
        ⟨7, [1], some ⟨"html", 7⟩⟩ 60 3).1.records = 0 ∧
      (fetch_html_via_abstractapi true (fun _ => .exn 0)
        ⟨7, [1], some ⟨"html", 7⟩⟩ 60 3).2.tss = [1]) :=
  ⟨⟨rfl, by norm_num⟩,
    (record_once_per_response (fun _ => .exn 0) 0 0 1 ⟨0, [], none⟩ emptyLog
      ⟨7, [1], some ⟨"html", 7⟩⟩ ⟨"html", 7⟩ 60 3 rfl (by norm_num)).2.1⟩

/-! ### C5 -/

/-- C5: on a cache miss the retry loop issues at most `max_retries`
transport attempts (and, being structurally recursive on that budget,
always terminates); if no attempt classifies as success the call returns
`None` (exhaustion). -/
theorem fetch_bounded_attempts_and_exhaustion
    (transport : ℕ → TransportResult) (st : FetchState) (ucs : ℚ) (mr : ℕ)
    (hmiss : ∀ e, st.cache = some e → ¬(st.now - e.mtime ≤ ucs)) :
    (fetch_html_via_abstractapi true transport st ucs mr).1.attempts ≤ mr ∧
    ((∀ i, (transport i).isSuccess = false) →
      (fetch_html_via_abstractapi true transport st ucs mr).1.result =
        none) := by
  rw [fetch_cacheMiss_eq transport mr hmiss]
  constructor
  · obtain ⟨k, hk, ha, _⟩ :=
      fetchLoop_attempts_records transport mr 0 1 st emptyLog
    rw [ha]
    simp [emptyLog]
    omega
  · intro hns
    exact fetchLoop_result_none transport hns mr 0 1 st emptyLog

/-- Witness for C5: a transport that always answers 404. -/
theorem fetch_bounded_attempts_and_exhaustion_witness :
    (fetch_html_via_abstractapi true (fun _ => .resp 0 (some 404) "x")
        ⟨0, [], none⟩ 3600 3).1.attempts ≤ 3 ∧
    (fetch_html_via_abstractapi true (fun _ => .resp 0 (some 404) "x")
        ⟨0, [], none⟩ 3600 3).1.result = none :=
  ⟨(fetch_bounded_attempts_and_exhaustion _ ⟨0, [], none⟩ 3600 3
      (fun e h => Option.noConfusion h)).1,
    (fetch_bounded_attempts_and_exhaustion _ ⟨0, [], none⟩ 3600 3
      (fun e h => Option.noConfusion h)).2 (fun _ => rfl)⟩

/-! ### C6 -/

theorem range_map_pow_succ (m : ℕ) (b : ℚ) :
    (List.range (m + 1)).map (fun j => b * 2 ^ j) =
      b :: (List.range m).map (fun j => (2 * b) * 2 ^ j) := by
  rw [List.range_succ_eq_map, List.map_cons, List.map_map]
  refine congrArg₂ _ (by ring) (List.map_congr_left ?_)
  intro j _
  simp only [Function.comp_apply]
  rw [pow_succ]
  ring

/-- The loop only ever appends to the sleep log. -/
theorem fetchLoop_sleeps_extend (transport : ℕ → TransportResult)
    (fuel : ℕ) : ∀ (idx : ℕ) (b : ℚ) (st : FetchState) (log : FetchLog),
    ∃ rest, (fetchLoop transport fuel idx b st log).1.backoffSleeps =
      log.backoffSleeps ++ rest := by
  induction fuel with
  | zero =>
    intro idx b st log
    exact ⟨[], by rw [fetchLoop]; simp⟩
  | succ fuel ih =>
    intro idx b st log
    cases h : transport idx with
    | exn dur =>
      obtain ⟨rest, hr⟩ := ih (idx + 1) (2 * b)
        { st with now := (sleep_to_obey_rate_limit st.now st.tss).1 + dur + b,
                  tss := (sleep_to_obey_rate_limit st.now st.tss).2 }
        { log with waits := log.waits + 1, attempts := log.attempts + 1,
                   backoffSleeps := log.backoffSleeps ++ [b] }
      refine ⟨[b] ++ rest, ?_⟩
      rw [fetchLoop_exn_step fuel b st log h, hr]
      dsimp only
      rw [List.append_assoc]
    | resp dur status text =>
      cases hc : classify status text with
      | success =>
        exact ⟨[], by rw [fetchLoop_success_step fuel b st log h hc]; simp⟩
      | retryable =>
        obtain ⟨rest, hr⟩ := ih (idx + 1) (2 * b)
          { st with
              now := (sleep_to_obey_rate_limit st.now st.tss).1 + dur + b,
              tss := record_request_timestamp
                ((sleep_to_obey_rate_limit st.now st.tss).1 + dur)
                (sleep_to_obey_rate_limit st.now st.tss).2 }
          { log with waits := log.waits + 1, attempts := log.attempts + 1,
                     records := log.records + 1,
                     backoffSleeps := log.backoffSleeps ++ [b] }
        refine ⟨[b] ++ rest, ?_⟩
        rw [fetchLoop_retry_step fuel b st log h hc, hr]
        dsimp only
        rw [List.append_assoc]
      | unretryable =>
        exact ⟨[], by rw [fetchLoop_unretry_step fuel b st log h hc]; simp⟩

/-- When the first `m` attempts are all retryable failures (and the budget
allows them), the first `m` sleeps are `b·2⁰, …, b·2^(m-1)`, whatever
happens afterwards. -/
theorem fetchLoop_sleeps_prefix (transport : ℕ → TransportResult) :
    ∀ (m fuel idx : ℕ) (b : ℚ) (st : FetchState) (log : FetchLog),
    m ≤ fuel →
    (∀ j < m, (transport (idx + j)).isRetryable = true) →
    ∃ rest, (fetchLoop transport fuel idx b st log).1.backoffSleeps =
      log.backoffSleeps ++ (List.range m).map (fun j => b * 2 ^ j) ++ rest := by
  intro m
  induction m with
  | zero =>
    intro fuel idx b st log _ _
    obtain ⟨rest, hr⟩ := fetchLoop_sleeps_extend transport fuel idx b st log
    exact ⟨rest, by rw [hr]; simp⟩
  | succ m ihm =>
    intro fuel idx b st log hmle hret
    obtain ⟨fuel', rfl⟩ : ∃ fuel', fuel = fuel' + 1 := ⟨fuel - 1, by omega⟩
    have h0 := hret 0 (by omega)
    rw [Nat.add_zero] at h0
    have hshift : ∀ j < m, (transport (idx + 1 + j)).isRetryable = true := by
      intro j hj
      have := hret (j + 1) (by omega)
      rwa [show idx + (j + 1) = idx + 1 + j by omega] at this
    cases h : transport idx with
    | exn dur =>
      obtain ⟨rest, hr⟩ := ihm fuel' (idx + 1) (2 * b)
        { st with now := (sleep_to_obey_rate_limit st.now st.tss).1 + dur + b,
                  tss := (sleep_to_obey_rate_limit st.now st.tss).2 }
        { log with waits := log.waits + 1, attempts := log.attempts + 1,
                   backoffSleeps := log.backoffSleeps ++ [b] }
        (by omega) hshift
      refine ⟨rest, ?_⟩
      rw [fetchLoop_exn_step fuel' b st log h, hr]
      dsimp only
      rw [range_map_pow_succ]
      simp [List.append_assoc]
    | resp dur status text =>
      rw [h] at h0
      have hc : classify status text = .retryable := by
        simpa [TransportResult.isRetryable] using h0
      obtain ⟨rest, hr⟩ := ihm fuel' (idx + 1) (2 * b)
        { st with
            now := (sleep_to_obey_rate_limit st.now st.tss).1 + dur + b,
            tss := record_request_timestamp
              ((sleep_to_obey_rate_limit st.now st.tss).1 + dur)
              (sleep_to_obey_rate_limit st.now st.tss).2 }
        { log with waits := log.waits + 1, attempts := log.attempts + 1,
                   records := log.records + 1,
                   backoffSleeps := log.backoffSleeps ++ [b] }
        (by omega) hshift
      refine ⟨rest, ?_⟩
      rw [fetchLoop_retry_step fuel' b st log h hc, hr]
      dsimp only
      rw [range_map_pow_succ]
      simp [List.append_assoc]

/-- C6: within one fetch call (cache miss, budget `mr`), across `m ≤ mr`
consecutive retryable failures (exception, 403, 429 or 5xx), the `j`-th
backoff sleep (0-based) lasts `2 ^ j` seconds — the `r`-th sleep is
`backoff_base * 2 ^ (r-1)` with the code's base `1.0` — whatever the later
attempts do, and that sleep sequence is monotonically non-decreasing. -/
theorem backoff_doubles_per_retry (transport : ℕ → TransportResult)
    (st : FetchState) (ucs : ℚ) (mr m : ℕ)
    (hmiss : ∀ e, st.cache = some e → ¬(st.now - e.mtime ≤ ucs))
    (hm : m ≤ mr)
    (hretry : ∀ j < m, (transport j).isRetryable = true) :
    (∃ rest,
      (fetch_html_via_abstractapi true transport st ucs mr).1.backoffSleeps =
        (List.range m).map (fun j => (2 : ℚ) ^ j) ++ rest) ∧
    ((List.range m).map (fun j => (2 : ℚ) ^ j)).Chain' (· ≤ ·) := by
  rw [fetch_cacheMiss_eq transport mr hmiss]
  constructor
  · obtain ⟨rest, hr⟩ := fetchLoop_sleeps_prefix transport m mr 0 1 st emptyLog
      hm (by simpa using hretry)
    refine ⟨rest, ?_⟩
    rw [hr]
    simp [emptyLog]
  · refine List.Pairwise.chain' ?_
    rw [List.pairwise_map]
    refine List.Pairwise.imp ?_ (List.pairwise_lt_range m)
    intro a c hac
    exact pow_le_pow_right₀ one_le_two (le_of_lt hac)

/-- Witness for C6 on the 429, 429, 200-with-marker transport with budget
three: the first two sleeps are `[1, 2]`. -/
theorem backoff_doubles_per_retry_witness :
    ((∃ rest,
      (fetch_html_via_abstractapi true scenario3Transport
          ⟨0, [], none⟩ 3600 3).1.backoffSleeps =
        (List.range 2).map (fun j => (2 : ℚ) ^ j) ++ rest) ∧
    ((List.range 2).map (fun j => (2 : ℚ) ^ j)).Chain' (· ≤ ·)) :=
  backoff_doubles_per_retry scenario3Transport ⟨0, [], none⟩ 3600 3 2
    (fun e h => Option.noConfusion h) (by omega) (fun j hj => by
      interval_cases j <;> rfl)

/-! ### C10 -/

/-- C10: an attempt whose transport call raises an exception appends no
timestamp: the record count is unchanged, the timestamp list after the
attempt is a suffix of the one before (only the rate-limit purge may have
removed old entries — nothing is added), and exactly the one attempt was
consumed. -/
theorem exception_attempt_records_nothing (transport : ℕ → TransportResult)
    (idx : ℕ) (b : ℚ) (st : FetchState) (log : FetchLog) (dur : ℚ)
    (h : transport idx = .exn dur) :
    (fetchLoop transport 1 idx b st log).1.records = log.records ∧
    (fetchLoop transport 1 idx b st log).2.tss <:+ st.tss ∧
    (fetchLoop transport 1 idx b st log).1.attempts = log.attempts + 1 := by
  rw [fetchLoop_exn_step 0 b st log h, fetchLoop]
  exact ⟨rfl, sleep_to_obey_suffix st.now st.tss, rfl⟩

/-- Witness for C10 at a concrete raising transport. -/
theorem exception_attempt_records_nothing_witness :
    ((fun _ => TransportResult.exn 5) 0 = TransportResult.exn 5) ∧
    ((fetchLoop (fun _ => .exn 5) 1 0 1 ⟨0, [3], none⟩ emptyLog).1.records =
        emptyLog.records ∧
      (fetchLoop (fun _ => .exn 5) 1 0 1 ⟨0, [3], none⟩ emptyLog).2.tss <:+
        (⟨0, [3], none⟩ : FetchState).tss ∧
      (fetchLoop (fun _ => .exn 5) 1 0 1 ⟨0, [3], none⟩ emptyLog).1.attempts =
        emptyLog.attempts + 1) :=
  ⟨rfl, exception_attempt_records_nothing _ 0 1 ⟨0, [3], none⟩ emptyLog 5 rfl⟩

/-! ## Keyed view of the disk cache (one file per digest key)

`fetch_html_via_abstractapi` reads and writes the file
`CACHE_DIR/<sha256(url)>.html`; reading returns the content when
`time.time() - getmtime ≤ max_age`.  We model the cache directory as an
association list from file path to `CacheEntry`, writes prepending (the new
file shadows the old one at the same path, with mtime set to the write
time). -/

def fs_lookup : List (String × CacheEntry) → String → Option CacheEntry
  | [], _ => none
  | (k, e) :: rest, key => if k == key then some e else fs_lookup rest key

/-- Read the cache file at `key`: present and aged at most `maxAge`. -/
def fs_get (c : List (String × CacheEntry)) (key : String)
    (now maxAge : ℚ) : Option String :=
  match fs_lookup c key with
  | none => none
  | some e => if now - e.mtime ≤ maxAge then some e.text else none

/-- Write (or overwrite) the cache file at `key` at time `now`. -/
def fs_put (c : List (String × CacheEntry)) (key : String) (v : String)
    (now : ℚ) : List (String × CacheEntry) :=
  (key, ⟨v, now⟩) :: c

/-! ## Schedule extraction -/

/-- Python `str.strip()` whitespace (the characters this data can contain;
`strip` removes them from both ends). -/
def isPySpace (c : Char) : Bool :=
  c == ' ' || c == '\t' || c == '\n' || c == '\r' || c == '\x0b' || c == '\x0c'

/-- Python `s.strip()`. -/
def pyStrip (s : String) : String :=
  String.mk (((s.toList.dropWhile isPySpace).reverse.dropWhile
    isPySpace).reverse)

/-- Accumulate decimal digits; fails on the first non-digit. -/
def pyIntDigits : List Char → ℕ → Option ℕ
  | [], acc => some acc
  | c :: cs, acc =>
    if c.isDigit then pyIntDigits cs (10 * acc + (c.toNat - 48)) else none

/-- Python `int(s)` on an already-stripped string: optional sign followed by
at least one ASCII decimal digit, `None` modelling a raised `ValueError`.
(The underscore separators and non-ASCII digits `int` also accepts never
occur in a `data-stat=week` cell.) -/
def pyInt (s : String) : Option ℤ :=
  match s.toList with
  | [] => none
  | '-' :: rest =>
    if rest.isEmpty then none
    else (pyIntDigits rest 0).map (fun n => -(n : ℤ))
  | '+' :: rest =>
    if rest.isEmpty then none
    else (pyIntDigits rest 0).map (fun n => (n : ℤ))
  | cs => (pyIntDigits cs 0).map (fun n => (n : ℤ))

/-- One `<tr>` of the schedule table, as the extractors see it:
`week`/`score` are the text of the `td[data-stat=week]` /
`td[data-stat=score]` cells when present, and `matchReport` is the `href`
of an `<a>Match Report</a>` anchor when one with an `href` exists (the code
skips the row when either the anchor or its `href` is missing, which the
single `Option` models). -/
structure Row where
  week : Option String
  score : Option String
  matchReport : Option String
deriving Repr, DecidableEq

/-- Python `set.add` on a list kept duplicate-free in insertion order. -/
def setInsert (acc : List ℤ) (n : ℤ) : List ℤ :=
  if n ∈ acc then acc else acc ++ [n]

/-- Loop body of `get_latest_completed_week_from_soup` (lines 151–158):
both cells present, stripped score nonempty, week parsed as `int` (a
`ValueError` skips the row). -/
def weekStep (acc : List ℤ) (row : Row) : List ℤ :=
  match row.week, row.score with
  | some wk, some sc =>
    if pyStrip sc = "" then acc
    else
      match pyInt (pyStrip wk) with
      | some n => setInsert acc n
      | none => acc
  | _, _ => acc

/-- The `weeks` set built by the loop. -/
def weeksOf (rows : List Row) : List ℤ :=
  rows.foldl weekStep []

/-- Python `max(l)` over a nonempty collection, `None` when empty — the
`max(weeks) if weeks else None` of line 159. -/
def pyMax : List ℤ → Option ℤ
  | [] => none
  | x :: xs => some (xs.foldl max x)

/-- `get_latest_completed_week_from_soup`: `None` when the schedule table is
missing, else the maximum recorded week. -/
def get_latest_completed_week_from_soup (soup : Option (List Row)) :
    Option ℤ :=
  match soup with
  | none => none
  | some rows => pyMax (weeksOf rows)

/-- Loop body of `get_links_by_week_from_soup` (lines 168–179). -/
def linkStep (target_week : ℤ) (links : List String) (row : Row) :
    List String :=
  match row.week with
  | none => links
  | some wk =>
    match pyInt (pyStrip wk) with
    | none => links
    | some w =>
      if w = target_week then
        match row.matchReport with
        | some href => links ++ ["https://fbref.com" ++ href]
        | none => links
      else links

/-- `get_links_by_week_from_soup`: `[]` when the table is missing, else the
match-report URLs of the rows of the target week, in document order. -/
def get_links_by_week_from_soup (soup : Option (List Row))
    (target_week : ℤ) : List String :=
  match soup with
  | none => []
  | some rows => rows.foldl (linkStep target_week) []

/-! ## Main workflow (lines 206–237) -/

/-- How a run of the `__main__` block ends: `SystemExit(n)` / normal
termination with status `n`, or `fatal` for an uncaught exception (the
`CalledProcessError` that `subprocess.run(..., check=True)` raises in
`run_match` propagates out and yields a non-zero interpreter exit). -/
inductive ExitOutcome where
  | exitCode (n : ℕ)
  | fatal
deriving Repr, DecidableEq

/-- The `__main__` block.  `htmlRes` is what `fetch_html_via_abstractapi`
returned; `parse h` is the schedule table BeautifulSoup finds in `h`;
`scoreOk i` tells whether the `scoring.py` subprocess for the `i`-th link
exits with status 0.  `if not html` is truthiness (`None` or `""`);
`if not target_week` likewise treats week `0` as missing; the loop over
links aborts at the first failing subprocess; `combine_results` and the
final prints always fall off the end of the script (exit status 0). -/
def mainRun (htmlRes : Option String) (parse : String → Option (List Row))
    (scoreOk : ℕ → Bool) : ExitOutcome :=
  match htmlRes with
  | none => .exitCode 0
  | some h =>
    if h = "" then .exitCode 0
    else
      let soup := parse h
      match get_latest_completed_week_from_soup soup with
      | none => .exitCode 0
      | some w =>
        if w = 0 then .exitCode 0
        else
          let links := get_links_by_week_from_soup soup w
          if links.isEmpty then .exitCode 0
          else if (List.range links.length).all scoreOk then .exitCode 0
          else .fatal

/-! ### C7 -/

/-- C7: writing a payload and immediately reading it back with any positive
`max_age` returns the payload, and a read of an entry older than `max_age`
signals absence (no expired payload is returned). -/
theorem cache_put_get_roundtrip_and_staleness :
    (∀ (c : List (String × CacheEntry)) (k v : String) (now maxAge : ℚ),
      0 < maxAge → fs_get (fs_put c k v now) k now maxAge = some v) ∧
    (∀ (c : List (String × CacheEntry)) (k : String) (e : CacheEntry)
      (now maxAge : ℚ), fs_lookup c k = some e → maxAge < now - e.mtime →
      fs_get c k now maxAge = none) := by
  constructor
  · intro c k v now maxAge hpos
    unfold fs_get fs_put fs_lookup
    simp only [beq_self_eq_true, if_true]
    rw [if_pos (by rw [sub_self]; exact le_of_lt hpos)]
  · intro c k e now maxAge hlk hst
    unfold fs_get
    rw [hlk]
    dsimp only
    rw [if_neg (not_le.mpr hst)]

/-- Witness for C7 at concrete cache contents. -/
theorem cache_put_get_roundtrip_and_staleness_witness :
    ((0 : ℚ) < 1 ∧ fs_get (fs_put [] "k" "html" 0) "k" 0 1 = some "html") ∧
    (fs_lookup [("y", ⟨"old", 0⟩)] "y" = some ⟨"old", 0⟩ ∧
      (50 : ℚ) < 100 - 0 ∧
      fs_get [("y", ⟨"old", 0⟩)] "y" 100 50 = none) :=
  ⟨⟨by norm_num,
      cache_put_get_roundtrip_and_staleness.1 [] "k" "html" 0 1 (by norm_num)⟩,
    ⟨rfl, by norm_num,
      cache_put_get_roundtrip_and_staleness.2 [("y", ⟨"old", 0⟩)] "y"
        ⟨"old", 0⟩ 100 50 rfl (by norm_num)⟩⟩

/-! ### C8 -/

/-- The contribution of one row to the `weeks` set: its parsed week number
when both cells exist, the stripped score is nonempty and the week parses. -/
def weekOfRow (row : Row) : Option ℤ :=
  match row.week, row.score with
  | some wk, some sc =>
    if pyStrip sc = "" then none else pyInt (pyStrip wk)
  | _, _ => none

theorem weekStep_eq (acc : List ℤ) (row : Row) :
    weekStep acc row =
      match weekOfRow row with
      | some n => setInsert acc n
      | none => acc := by
  rcases row with ⟨w, s, m⟩
  cases w with
  | none => cases s <;> rfl
  | some wk =>
    cases s with
    | none => rfl
    | some sc =>
      unfold weekStep weekOfRow
      dsimp only
      by_cases hsc : pyStrip sc = ""
      · simp only [if_pos hsc]
      · simp only [if_neg hsc]

theorem mem_setInsert (acc : List ℤ) (m n : ℤ) :
    n ∈ setInsert acc m ↔ n ∈ acc ∨ n = m := by
  unfold setInsert
  by_cases hm : m ∈ acc
  · rw [if_pos hm]
    constructor
    · exact Or.inl
    · rintro (h | rfl)
      · exact h
      · exact hm
  · rw [if_neg hm]
    simp

theorem mem_foldl_weekStep (rows : List Row) :
    ∀ (acc : List ℤ) (n : ℤ),
      n ∈ rows.foldl weekStep acc ↔
        n ∈ acc ∨ n ∈ rows.filterMap weekOfRow := by
  induction rows with
  | nil => intro acc n; simp
  | cons row rest ih =>
    intro acc n
    rw [List.foldl_cons, List.filterMap_cons, weekStep_eq]
    cases h : weekOfRow row with
    | none =>
      rw [ih]
    | some m =>
      rw [ih, mem_setInsert]
      simp only [List.mem_cons]
      tauto

theorem foldl_max_mem (xs : List ℤ) : ∀ x : ℤ, xs.foldl max x ∈ x :: xs := by
  induction xs with
  | nil => intro x; simp
  | cons y ys ih =>
    intro x
    rw [List.foldl_cons]
    rcases List.mem_cons.mp (ih (max x y)) with h | h
    · rcases max_choice x y with hxy | hxy
      · rw [h, hxy]; exact List.mem_cons_self _ _
      · rw [h, hxy]
        exact List.mem_cons_of_mem x (List.mem_cons_self y ys)
    · exact List.mem_cons_of_mem x (List.mem_cons_of_mem y h)

theorem le_foldl_max (xs : List ℤ) :
    ∀ x a : ℤ, a ∈ x :: xs → a ≤ xs.foldl max x := by
  induction xs with
  | nil =>
    intro x a ha
    rw [List.mem_singleton] at ha
    rw [List.foldl_nil, ha]
  | cons y ys ih =>
    intro x a ha
    rw [List.foldl_cons]
    rcases List.mem_cons.mp ha with rfl | hmem
    · exact le_trans (le_max_left a y) (ih (max a y) _ (List.mem_cons_self _ _))
    · rcases List.mem_cons.mp hmem with rfl | hmem2
      · exact le_trans (le_max_right x a)
          (ih (max x a) _ (List.mem_cons_self _ _))
      · exact ih (max x y) a (List.mem_cons_of_mem _ hmem2)

/-- Characterisation of Python `max(l) if l else None`. -/
theorem pyMax_eq_some_iff (l : List ℤ) (m : ℤ) :
    pyMax l = some m ↔ m ∈ l ∧ ∀ a ∈ l, a ≤ m := by
  cases l with
  | nil => simp [pyMax]
  | cons x xs =>
    unfold pyMax
    dsimp only
    constructor
    · intro h
      have he : xs.foldl max x = m := by
        exact Option.some.inj h
      exact ⟨he ▸ foldl_max_mem xs x, fun a ha => he ▸ le_foldl_max xs x a ha⟩
    · rintro ⟨hm, hall⟩
      have h1 : xs.foldl max x ≤ m := hall _ (foldl_max_mem xs x)
      have h2 : m ≤ xs.foldl max x := le_foldl_max xs x m hm
      rw [le_antisymm h1 h2]

/-- A row contributing a week has a present, nonempty (after strip) score. -/
theorem weekOfRow_some_score {row : Row} {n : ℤ}
    (h : weekOfRow row = some n) :
    ∃ sc, row.score = some sc ∧ pyStrip sc ≠ "" := by
  rcases row with ⟨w, s, m⟩
  cases w with
  | none => cases s <;> exact Option.noConfusion h
  | some wk =>
    cases s with
    | none => exact Option.noConfusion h
    | some sc =>
      unfold weekOfRow at h
      dsimp only at h
      by_cases hsc : pyStrip sc = ""
      · rw [if_pos hsc] at h
        exact Option.noConfusion h
      · exact ⟨sc, rfl, hsc⟩

/-- C8: `get_latest_completed_week_from_soup` returns `some m` exactly when
`m` is the greatest parsed week number among rows with a non-empty result
(rows with an unparsable week are skipped by `weekOfRow`); it returns `none`
when no row has a non-empty result; and on the table
{week 1: no result, week 2: "2-1", week 3: "1-1"} it returns 3. -/
theorem latest_completed_week_is_max (rows : List Row) :
    (∀ m : ℤ, get_latest_completed_week_from_soup (some rows) = some m ↔
      m ∈ rows.filterMap weekOfRow ∧ ∀ a ∈ rows.filterMap weekOfRow, a ≤ m) ∧
    ((∀ row ∈ rows, ∀ sc, row.score = some sc → pyStrip sc = "") →
      get_latest_completed_week_from_soup (some rows) = none) ∧
    get_latest_completed_week_from_soup
      (some [⟨some "1", some "", none⟩, ⟨some "2", some "2-1", none⟩,
             ⟨some "3", some "1-1", none⟩]) = some 3 := by
  have hmem : ∀ n : ℤ, n ∈ weeksOf rows ↔ n ∈ rows.filterMap weekOfRow := by
    intro n
    have := mem_foldl_weekStep rows [] n
    simpa [weeksOf] using this
  refine ⟨?_, ?_, by decide⟩
  · intro m
    show pyMax (weeksOf rows) = some m ↔ _
    rw [pyMax_eq_some_iff]
    constructor
    · rintro ⟨h1, h2⟩
      exact ⟨(hmem m).mp h1, fun a ha => h2 a ((hmem a).mpr ha)⟩
    · rintro ⟨h1, h2⟩
      exact ⟨(hmem m).mpr h1, fun a ha => h2 a ((hmem a).mp ha)⟩
  · intro hempty
    show pyMax (weeksOf rows) = none
    have hnil : weeksOf rows = [] := by
      rw [List.eq_nil_iff_forall_not_mem]
      intro n hn
      have h2 : n ∈ rows.filterMap weekOfRow := (hmem n).mp hn
      rw [List.mem_filterMap] at h2
      obtain ⟨row, hrow, hw⟩ := h2
      obtain ⟨sc, hsc, hne⟩ := weekOfRow_some_score hw
      exact hne (hempty row hrow sc hsc)
    rw [hnil]
    rfl

/-- Witness for C8, discharging the no-result hypothesis on a one-row
table. -/
theorem latest_completed_week_is_max_witness :
    (get_latest_completed_week_from_soup
        (some [⟨some "2", some "2-1", none⟩]) = some 2 ↔
      (2 : ℤ) ∈ [Row.mk (some "2") (some "2-1") none].filterMap weekOfRow ∧
        ∀ a ∈ [Row.mk (some "2") (some "2-1") none].filterMap weekOfRow,
          a ≤ 2) ∧
    get_latest_completed_week_from_soup
      (some [⟨some "1", some "", none⟩]) = none :=
  ⟨(latest_completed_week_is_max [⟨some "2", some "2-1", none⟩]).1 2,
    (latest_completed_week_is_max [⟨some "1", some "", none⟩]).2.1
      (by
        intro row hrow sc hsc
        rw [List.mem_singleton] at hrow
        subst hrow
        have : sc = "" := by
          have := hsc
          simp only at this
          exact (Option.some.inj this).symm
        rw [this]
        decide)⟩

/-! ### C9 -/

/-- When no row's week cell parses to the target week, the link fold adds
nothing. -/
theorem links_foldl_const (w : ℤ) (rows : List Row) :
    ∀ acc : List String,
      (∀ row ∈ rows, ∀ wk, row.week = some wk →
        pyInt (pyStrip wk) ≠ some w) →
      rows.foldl (linkStep w) acc = acc := by
  induction rows with
  | nil => intro acc _; rfl
  | cons row rest ih =>
    intro acc hno
    rw [List.foldl_cons]
    have hstep : linkStep w acc row = acc := by
      unfold linkStep
      cases hw : row.week with
      | none => rfl
      | some wk =>
        dsimp only
        cases hpi : pyInt (pyStrip wk) with
        | none => rfl
        | some v =>
          dsimp only
          have : v ≠ w := by
            intro hvw
            exact hno row (List.mem_cons_self _ _) wk hw (hvw ▸ hpi)
          rw [if_neg this]
    rw [hstep]
    exact ih acc (fun r hr => hno r (List.mem_cons_of_mem _ hr))

/-- C9: a target week matched by no row yields an empty link sequence
rather than an error, and the run exits with status 0 at every "no data"
stage: fetch returned `None` or an empty string, no completed week found
(including Python-falsy week `0`), an empty link list — and when every
dispatched scorer succeeds the run also ends with status 0 (the merge step
cannot fail the run). -/
theorem no_matching_rows_empty_links_and_clean_exit
    (rows : List Row) (w : ℤ) (parse : String → Option (List Row))
    (scoreOk : ℕ → Bool) (htmlRes : Option String) :
    ((∀ row ∈ rows, ∀ wk, row.week = some wk →
        pyInt (pyStrip wk) ≠ some w) →
      get_links_by_week_from_soup (some rows) w = []) ∧
    mainRun none parse scoreOk = .exitCode 0 ∧
    mainRun (some "") parse scoreOk = .exitCode 0 ∧
    (∀ h : String, h ≠ "" →
      get_latest_completed_week_from_soup (parse h) = none →
      mainRun (some h) parse scoreOk = .exitCode 0) ∧
    (∀ h : String, h ≠ "" →
      get_latest_completed_week_from_soup (parse h) = some 0 →
      mainRun (some h) parse scoreOk = .exitCode 0) ∧
    (∀ (h : String) (w' : ℤ), h ≠ "" →
      get_latest_completed_week_from_soup (parse h) = some w' →
      get_links_by_week_from_soup (parse h) w' = [] →
      mainRun (some h) parse scoreOk = .exitCode 0) ∧
    ((∀ i, scoreOk i = true) →
      mainRun htmlRes parse scoreOk = .exitCode 0) := by
  refine ⟨?_, rfl, ?_, ?_, ?_, ?_, ?_⟩
  · intro hno
    exact links_foldl_const w rows [] hno
  · unfold mainRun
    dsimp only
    rw [if_pos rfl]
  · intro h hne hlat
    unfold mainRun
    dsimp only
    rw [if_neg hne, hlat]
  · intro h hne hlat
    unfold mainRun
    dsimp only
    rw [if_neg hne, hlat]
    dsimp only
    rw [if_pos rfl]
  · intro h w' hne hlat hlinks
    unfold mainRun
    dsimp only
    rw [if_neg hne, hlat]
    dsimp only
    by_cases hw0 : w' = 0
    · rw [if_pos hw0]
    · rw [if_neg hw0, hlinks]
      rfl
  · intro hall
    unfold mainRun
    cases htmlRes with
    | none => rfl
    | some h =>
      dsimp only
      by_cases hne : h = ""
      · rw [if_pos hne]
      · rw [if_neg hne]
        cases hlat : get_latest_completed_week_from_soup (parse h) with
        | none => rfl
        | some w' =>
          dsimp only
          by_cases hw0 : w' = 0
          · rw [if_pos hw0]
          · rw [if_neg hw0]
            by_cases hempty :
                (get_links_by_week_from_soup (parse h) w').isEmpty = true
            · rw [if_pos hempty]
            · rw [if_neg hempty,
                if_pos (List.all_eq_true.mpr (fun x _ => hall x))]

/-- Witness for C9: a one-row table (week 2, result "2-1", no match-report
link).  Week 5 matches no row, so its link list is empty; the latest
completed week is 2 but the row has no link, so the link list for week 2 is
empty as well and the run exits 0. -/
theorem no_matching_rows_empty_links_and_clean_exit_witness :
    get_links_by_week_from_soup (some [⟨some "2", some "2-1", none⟩]) 5 =
        [] ∧
    mainRun (some "x") (fun _ => some [⟨some "2", some "2-1", none⟩])
        (fun _ => true) = .exitCode 0 :=
  ⟨(no_matching_rows_empty_links_and_clean_exit
      [⟨some "2", some "2-1", none⟩] 5 (fun _ => some [⟨some "2", some "2-1", none⟩])
      (fun _ => true) none).1
      (by
        intro row hrow wk hw
        rw [List.mem_singleton] at hrow
        subst hrow
        have : wk = "2" := Option.some.inj hw.symm
        subst this
        decide),
    (no_matching_rows_empty_links_and_clean_exit
      [⟨some "2", some "2-1", none⟩] 5 (fun _ => some [⟨some "2", some "2-1", none⟩])
      (fun _ => true) none).2.2.2.2.2.1 "x" 2 (by decide) (by decide)
      (by decide)⟩
